import Mathlib

/-!
Verification of the uiflow core (src/flow.tsx) against its specification.

The development shallowly embeds the JavaScript/TypeScript source:

* `createFlowChannel` becomes `ChannelState` together with `emitCh`; the
  `listeners.forEach((l) => l())` call of `emit` is modelled by `runPass`,
  which reproduces the live iteration order of a JavaScript `Set`
  (elements appended during iteration are visited, elements deleted before
  being visited are skipped, a thrown listener exception aborts the pass).
* `defineFlow` becomes `defineFlow` over an association list of steps.
* The `FlowRunner` helpers `applyTransition`, the action-step effect and the
  render branch become `applyTransition`, `runActionEffect` and
  `renderRunner` on an explicit `RunnerState`.
* `getResolvedChannels` (channel binding with the `sticky` / `replace`
  strategies and the referential-stability deduplication) becomes
  `getResolvedChannels` on association lists of channel identities, with
  `ResolveResult.samePrev` recording whether the previously resolved map
  object was returned unchanged (which is what keeps the React subscription
  effect from re-firing).
-/

namespace UIFlow

/-- Channel update argument: the JS code checks `typeof update === "function"`
and either applies the updater to the previous value or stores it directly. -/
inductive Updater (T : Type) where
  | val (t : T)
  | fn (f : T → T)

/-- `value = typeof update === "function" ? update(value) : update`. -/
def applyUpdater {T : Type} : Updater T → T → T
  | .val t, _ => t
  | .fn f, v => f v

/-- Observable behaviour of one subscribed listener callback during a
notification pass: return normally, throw, subscribe a fresh (passive)
listener, or unsubscribe a listener by identity. -/
inductive LEff where
  | pass
  | raise
  | addL (n : Nat)
  | removeL (n : Nat)
deriving DecidableEq, Repr

/-- A registered listener: identity paired with its behaviour. -/
abbrev Listener := Nat × LEff

/-- Number of `addL` effects in a listener list (used to bound the length of
a notification pass, since every added listener is passive). -/
def addCount (l : List Listener) : Nat :=
  l.countP (fun e => match e.2 with | .addL _ => true | _ => false)

/-- `listeners.forEach((l) => l())` over a JS `Set`, with live mutation
semantics: `reg` is the full registry in insertion order, the third argument
the not-yet-visited suffix.  An element added during the pass is appended and
visited; an element deleted before being visited is skipped; a listener that
throws aborts the pass and the exception propagates (third component of the
result).  Returns (identities called in order, final registry, threw?).
The fuel argument only bounds the recursion; `emitCh` always supplies enough. -/
def runPass : Nat → List Listener → List Listener → List Nat × List Listener × Bool
  | _, reg, [] => ([], reg, false)
  | 0, reg, _ => ([], reg, false)
  | fuel + 1, reg, (i, .pass) :: rest =>
      let r := runPass fuel reg rest
      (i :: r.1, r.2)
  | _ + 1, reg, (i, .raise) :: _ => ([i], reg, true)
  | fuel + 1, reg, (i, .addL n) :: rest =>
      if (reg.map Prod.fst).contains n then
        let r := runPass fuel reg rest
        (i :: r.1, r.2)
      else
        let r := runPass fuel (reg ++ [(n, .pass)]) (rest ++ [(n, .pass)])
        (i :: r.1, r.2)
  | fuel + 1, reg, (i, .removeL n) :: rest =>
      let r := runPass fuel (reg.filter (fun x => x.1 != n))
        (rest.filter (fun x => x.1 != n))
      (i :: r.1, r.2)

/-- State of one channel created by `createFlowChannel`: the current value
and the subscriber set in insertion order. -/
structure ChannelState (T : Type) where
  value : T
  listeners : List Listener

/-- Result of one `emit` call: the channel state afterwards, the listener
identities notified (in order), and whether a listener exception escaped. -/
structure EmitResult (T : Type) where
  state : ChannelState T
  notified : List Nat
  threw : Bool

/-- `get: () => value`. -/
def getCh {T : Type} (c : ChannelState T) : T := c.value

/-- `emit`: commit the new value, then `listeners.forEach((l) => l())`.
The fuel `length + addCount` suffices because every listener is visited at
most once and each `addL` effect appends at most one passive listener. -/
def emitCh {T : Type} (c : ChannelState T) (u : Updater T) : EmitResult T :=
  let v := applyUpdater u c.value
  let r := runPass (c.listeners.length + addCount c.listeners) c.listeners c.listeners
  ⟨⟨v, r.2.1⟩, r.1, r.2.2⟩

/-- Error thrown by `defineFlow` (`ConfigurationError` in the spec taxonomy);
it records the offending `start` value interpolated into the message. -/
structure ConfigurationError where
  start : String
deriving DecidableEq, Repr

/-- `DefineFlowOptions`: required `start` plus `channelTransitions`, the
latter stored verbatim and never inspected by `defineFlow` (hence opaque). -/
structure DefineFlowOptions (ρ : Type) where
  start : String
  channelTransitions : Option ρ

/-- `FlowDefinition`: steps map (association list, step descriptors of
opaque type `σ`), start step name, and the verbatim channel transitions. -/
structure FlowDefinition (σ ρ : Type) where
  steps : List (String × σ)
  start : String
  channelTransitions : Option ρ
deriving DecidableEq

/-- `defineFlow(steps, options)`: throw if `!options.start` (the empty
string is the only falsy string) or `!steps[options.start]` (step
descriptors are objects, hence truthy whenever the key is present);
otherwise return the definition verbatim. -/
def defineFlow {σ ρ : Type} (steps : List (String × σ)) (options : DefineFlowOptions ρ) :
    Except ConfigurationError (FlowDefinition σ ρ) :=
  if options.start == "" || (steps.lookup options.start).isNone then
    .error ⟨options.start⟩
  else
    .ok ⟨steps, options.start, options.channelTransitions⟩

/-- Runner-side mutable state: `currentStep` and `data` live in the
`useState` pair, `busy` in its own `useState`, `mounted` in `isMountedRef`.
`dataVersion` counts the fresh references produced by the `{ ...prev.data }`
clones, i.e. the re-renders `applyTransition` forces. -/
structure RunnerState (D : Type) where
  currentStep : String
  data : D
  dataVersion : Nat
  mounted : Bool
  busy : Bool
deriving DecidableEq

/-- `applyTransition(nextStepName)`: bail out when unmounted; advance when
`nextStepName && flow.steps[nextStepName]` is truthy (the empty string is
falsy, so it never advances even when it is a key); in either remaining case
re-render by cloning the data (`dataVersion` bump), leaving `data` itself as
the callbacks left it. -/
def applyTransition {σ ρ D : Type} (flow : FlowDefinition σ ρ) (s : RunnerState D)
    (next : Option String) : RunnerState D :=
  if s.mounted then
    match next with
    | some n =>
      if n != "" && (flow.steps.lookup n).isSome then
        { s with currentStep := n, dataVersion := s.dataVersion + 1 }
      else
        { s with dataVersion := s.dataVersion + 1 }
    | none => { s with dataVersion := s.dataVersion + 1 }
  else s

/-- Callbacks of an action step (`ActionStep` in the source).  Each JS
callback receives `state.data` by reference and may mutate it in place
before returning or before throwing, so each one is modelled as returning
the data as the callback left it alongside its `Except` result: the second
component is meaningful on the error path too (mutations made before a
throw persist). -/
structure ActionStep (D I O E : Type) where
  input : D → Except E I × D
  action : I → D → Except E O × D
  onOutput : D → O → Except E (Option String) × D

/-- The awaited body of the action effect:
`input(data)`, then `action(input, data)`, then `onOutput(data, output)`;
the first exception aborts the chain, but the data mutated so far (by the
throwing callback and by every callback before it) is kept. -/
def actionChain {D I O E : Type} (st : ActionStep D I O E) (d : D) :
    Except E (Option String) × D :=
  match st.input d with
  | (.error e, d1) => (.error e, d1)
  | (.ok i, d1) =>
    match st.action i d1 with
    | (.error e, d2) => (.error e, d2)
    | (.ok o, d2) => st.onOutput d2 o

/-- Outcome of one run of the action effect.  The effect itself is total:
the catch block only logs (`console.error`), recorded by `errorLogged`, and
never rethrows towards the rendering surface. -/
structure ActionRunResult (D : Type) where
  state : RunnerState D
  errorLogged : Bool

/-- The action-step `useEffect` body: `setBusy(true)`, run the chain, on
success `applyTransition(next)`, on exception log it; in the `finally`
branch `setBusy(false)` guarded by `isMountedRef.current`.  On either path
`state.data` retains every in-place mutation the callbacks made before
returning or throwing; only the success path clones it (`applyTransition`). -/
def runActionEffect {σ ρ D I O E : Type} (flow : FlowDefinition σ ρ)
    (st : ActionStep D I O E) (s : RunnerState D) : ActionRunResult D :=
  let s1 : RunnerState D := { s with busy := true }
  match actionChain st s1.data with
  | (.ok next, d2) =>
      let s2 := applyTransition flow { s1 with data := d2 } next
      ⟨{ s2 with busy := if s2.mounted then false else s2.busy }, false⟩
  | (.error _, d2) =>
      ⟨{ s1 with data := d2, busy := if s1.mounted then false else s1.busy }, true⟩

/-- The step fields the render path inspects:
`isActionStep = step.action && !step.view`. -/
structure StepShape where
  hasAction : Bool
  hasView : Bool
deriving DecidableEq

/-- `const isActionStep = (step as any).action && !(step as any).view`. -/
def isActionStep (st : StepShape) : Bool := st.hasAction && !st.hasView

/-- What the FlowRunner component returns: the unknown-step error `div`, the
action branch `div` (with its text when busy, empty otherwise), or the UI
step's view component (identified here by the step name; its computed input
and output handle are not needed by the claims). -/
inductive RenderOut where
  | unknownStep (name : String)
  | actionView (text : Option String)
  | uiView (name : String)
deriving DecidableEq

/-- The render tail of `FlowRunner`: unknown step check, then
`if (isActionStep) return <div>busy ? "Processing..." : null</div>`,
else render the UI step's view. -/
def renderRunner {ρ D : Type} (flow : FlowDefinition StepShape ρ) (s : RunnerState D) :
    RenderOut :=
  match flow.steps.lookup s.currentStep with
  | none => .unknownStep s.currentStep
  | some st =>
    if isActionStep st then
      .actionView (if s.busy then some "Processing..." else none)
    else
      .uiView s.currentStep

/-- A resolved channel map: channel key to channel instance, instances
identified by object identity (`Nat` tags, compared with JS `===`). -/
abbrev ChanMap := List (String × Nat)

/-- Keys of a channel map, in order. -/
def keysOf (l : ChanMap) : List String := l.map Prod.fst

/-- `eventChannelsStrategy` prop values. -/
inductive Strategy where
  | sticky
  | replace
deriving DecidableEq

/-- Sticky candidate: `candidate[key] = prev?.[key] ?? channel` for each
`[key, channel]` of `Object.entries(incoming)`. -/
def stickyCandidate (prev : Option ChanMap) (inc : ChanMap) : ChanMap :=
  inc.map (fun e => (e.1, ((prev.bind (fun p => p.lookup e.1)).getD e.2)))

/-- The candidate map computed for a strategy: fresh sticky merge, or the
incoming map verbatim under `replace`. -/
def candidateOf (strat : Strategy) (prev : Option ChanMap) (inc : ChanMap) : ChanMap :=
  match strat with
  | .sticky => stickyCandidate prev inc
  | .replace => inc

/-- The deduplication test of `getResolvedChannels`:
`prevKeys.length === candidateKeys.length` and every candidate entry is
bound identically in `prev`. -/
def sameChannels (prev cand : ChanMap) : Bool :=
  prev.length == cand.length && cand.all (fun e => prev.lookup e.1 == some e.2)

/-- Result of one `getResolvedChannels()` call.  `samePrev` records whether
the returned object is reference-identical to the previous resolution (the
React subscription effect, keyed on that identity, re-fires iff it is not). -/
structure ResolveResult where
  resolved : Option ChanMap
  samePrev : Bool
deriving DecidableEq

/-- `getResolvedChannels`: absent incoming resolves to absent; otherwise
compute the strategy's candidate; if a previous resolution exists and passes
the deduplication test, return it unchanged, else store and return the
candidate. -/
def getResolvedChannels (strat : Strategy) (prev : Option ChanMap)
    (incoming : Option ChanMap) : ResolveResult :=
  match incoming with
  | none => ⟨none, prev.isNone⟩
  | some inc =>
    let candidate := candidateOf strat prev inc
    match prev with
    | some p =>
      if sameChannels p candidate then ⟨some p, true⟩ else ⟨some candidate, false⟩
    | none => ⟨some candidate, false⟩

/-- Iterated resolution across a sequence of incoming channel maps, each
step's result feeding the next as `resolvedChannelsRef.current`. -/
def resolveSeq (strat : Strategy) : Option ChanMap → List (Option ChanMap) → Option ChanMap
  | prev, [] => prev
  | prev, m :: ms => resolveSeq strat (getResolvedChannels strat prev m).resolved ms

/-- Subscription state after the React subscription effect settles. -/
structure SubSync where
  subs : ChanMap
  resubscribed : Bool
deriving DecidableEq

/-- The subscription effect, keyed on the identity of the resolved map:
if the resolution returned the previous object the effect does not re-fire
and the existing subscriptions stay; otherwise it unsubscribes them all and
subscribes every channel of the new resolved map, keyed by channel key. -/
def syncSubscriptions (res : ResolveResult) (currentSubs : ChanMap) : SubSync :=
  if res.samePrev then ⟨currentSubs, false⟩
  else ⟨res.resolved.getD [], true⟩

/-! ### Association-list lookup helpers -/

theorem lookup_eq_some_mem {β : Type} {l : List (String × β)} {k : String} {v : β}
    (h : l.lookup k = some v) : (k, v) ∈ l := by
  induction l with
  | nil => simp [List.lookup] at h
  | cons e t ih =>
    obtain ⟨a, b⟩ := e
    rw [List.lookup_cons] at h
    by_cases hk : k = a
    · subst hk
      simp at h
      subst h
      exact List.mem_cons_self _ _
    · have hbeq : (k == a) = false := beq_false_of_ne hk
      rw [hbeq] at h
      exact List.mem_cons_of_mem _ (ih h)

theorem lookup_isSome_iff_mem_keys {β : Type} {l : List (String × β)} {k : String} :
    (l.lookup k).isSome ↔ k ∈ l.map Prod.fst := by
  induction l with
  | nil => simp [List.lookup]
  | cons e t ih =>
    obtain ⟨a, b⟩ := e
    rw [List.lookup_cons]
    by_cases hk : k = a
    · subst hk
      simp
    · have hbeq : (k == a) = false := beq_false_of_ne hk
      rw [hbeq]
      simp [hk, ih]

theorem nodup_mem_lookup {β : Type} {l : List (String × β)}
    (nd : (l.map Prod.fst).Nodup) {k : String} {v : β} (h : (k, v) ∈ l) :
    l.lookup k = some v := by
  induction l with
  | nil => simp at h
  | cons e t ih =>
    obtain ⟨a, b⟩ := e
    simp only [List.map_cons, List.nodup_cons] at nd
    rcases List.mem_cons.mp h with h1 | h1
    · obtain ⟨hk, hv⟩ := Prod.mk.injEq .. ▸ h1
      subst hk; subst hv
      simp [List.lookup_cons]
    · have hk : k ≠ a := by
        rintro rfl
        exact nd.1 (List.mem_map_of_mem Prod.fst h1)
      rw [List.lookup_cons, beq_false_of_ne hk]
      exact ih nd.2 h1

/-! ### C4: defineFlow validation -/

/-- Claim C4: `defineFlow(steps, options)` raises a `ConfigurationError`
exactly when `options.start` is falsy (the empty string) or absent from
`steps`, and otherwise returns a definition carrying `steps`, `start` and
`channelTransitions` verbatim. -/
theorem defineFlow_spec {σ ρ : Type} (steps : List (String × σ)) (o : DefineFlowOptions ρ) :
    ((o.start = "" ∨ steps.lookup o.start = none) →
        defineFlow steps o = .error ⟨o.start⟩) ∧
    (o.start ≠ "" → ∀ st, steps.lookup o.start = some st →
        defineFlow steps o = .ok ⟨steps, o.start, o.channelTransitions⟩) := by
  constructor
  · rintro (h | h) <;> simp [defineFlow, h]
  · intro hne st hst
    simp [defineFlow, hne, hst]

theorem defineFlow_spec_witness :
    ((("" : String) = "" ∨ ([("x", 0)] : List (String × Nat)).lookup "" = none) →
        defineFlow [("x", 0)] (⟨"", some 5⟩ : DefineFlowOptions Nat) = .error ⟨""⟩) ∧
    ((("x" : String) ≠ "" → ∀ st, ([("x", 0)] : List (String × Nat)).lookup "x" = some st →
        defineFlow [("x", 0)] (⟨"x", some 5⟩ : DefineFlowOptions Nat)
          = .ok ⟨[("x", 0)], "x", some 5⟩)) ∧
    defineFlow [("x", 0)] (⟨"", some 5⟩ : DefineFlowOptions Nat) = .error ⟨""⟩ ∧
    defineFlow [("x", 0)] (⟨"x", some 5⟩ : DefineFlowOptions Nat)
      = .ok ⟨[("x", 0)], "x", some 5⟩ :=
  ⟨(defineFlow_spec [("x", 0)] ⟨"", some 5⟩).1,
   (defineFlow_spec [("x", 0)] ⟨"x", some 5⟩).2,
   (defineFlow_spec [("x", 0)] ⟨"", some 5⟩).1 (Or.inl rfl),
   (defineFlow_spec [("x", 0)] ⟨"x", some 5⟩).2 (by decide) 0 (by decide)⟩

/-! ### C1: applyTransition -/

/-- Concrete flow whose steps map contains the empty string as a key
(legal: `defineFlow` only forbids the empty string as `start`). -/
def flowEmptyKey : FlowDefinition Unit Unit := ⟨[("", ()), ("a", ())], "a", none⟩

/-- Runner state sitting on step `a` of `flowEmptyKey`. -/
def stateOnA : RunnerState Unit := ⟨"a", (), 0, true, false⟩

/-- Claim C1 as stated is false: `onOutput` may return the empty string,
which is a key of `flow.steps` here, yet `applyTransition` leaves
`currentStep` unchanged because the JS truthiness test
`nextStepName && flow.steps[nextStepName]` fails on the falsy string. -/
theorem applyTransition_empty_key_counterexample :
    (flowEmptyKey.steps.lookup "").isSome = true ∧
    (applyTransition flowEmptyKey stateOnA (some "")).currentStep = "a" := by
  decide

/-- Claim C1 (amended): on a mounted runner, `applyTransition` always
re-renders with the current data (`data` untouched, a fresh clone forced);
`currentStep` is unchanged when `next` is absent, names no step, or is the
empty (falsy) string, and is set to `next` exactly when `next` is a
non-empty key of `flow.steps`. -/
theorem applyTransition_spec {σ ρ D : Type} (flow : FlowDefinition σ ρ)
    (s : RunnerState D) (next : Option String) (hm : s.mounted = true) :
    (applyTransition flow s next).data = s.data ∧
    (applyTransition flow s next).dataVersion = s.dataVersion + 1 ∧
    (next = none → (applyTransition flow s next).currentStep = s.currentStep) ∧
    (∀ n, next = some n → flow.steps.lookup n = none →
        (applyTransition flow s next).currentStep = s.currentStep) ∧
    (∀ n, next = some n → n = "" →
        (applyTransition flow s next).currentStep = s.currentStep) ∧
    (∀ n, next = some n → n ≠ "" → (flow.steps.lookup n).isSome →
        (applyTransition flow s next).currentStep = n) := by
  refine ⟨?_, ?_, ?_, ?_, ?_, ?_⟩
  · cases next with
    | none => simp [applyTransition, hm]
    | some n =>
      simp only [applyTransition, hm, if_true]
      split <;> rfl
  · cases next with
    | none => simp [applyTransition, hm]
    | some n =>
      simp only [applyTransition, hm, if_true]
      split <;> rfl
  · rintro rfl
    simp [applyTransition, hm]
  · rintro n rfl hnone
    simp [applyTransition, hm, hnone]
  · rintro n rfl rfl
    simp [applyTransition, hm]
  · rintro n rfl hne hsome
    simp [applyTransition, hm, bne_iff_ne, hne, hsome]

/-- Flow with two ordinary steps, used to instantiate `applyTransition_spec`. -/
def flowAB : FlowDefinition Unit Unit := ⟨[("a", ()), ("b", ())], "a", none⟩

theorem applyTransition_spec_witness :
    stateOnA.mounted = true ∧
    (applyTransition flowAB stateOnA (some "b")).currentStep = "b" :=
  ⟨rfl, (applyTransition_spec flowAB stateOnA (some "b") rfl).2.2.2.2.2 "b" rfl
    (by decide) (by decide)⟩

/-! ### C3: action-step error policy -/

/-- Claim C3: when `input`, `action` or `onOutput` of an action step throws,
the runner catches at its boundary: the error is logged, no transition
occurs, `busy` ends up false (the `finally` branch runs even on failure),
and nothing is rethrown (`runActionEffect` is total, returning a plain
`ActionRunResult`); the runner stays on the current step, with `data`
retaining the in-place mutations made before the throw. -/
theorem action_error_policy {σ ρ D I O E : Type} (flow : FlowDefinition σ ρ)
    (st : ActionStep D I O E) (s : RunnerState D) (e : E)
    (hm : s.mounted = true) (herr : (actionChain st s.data).1 = .error e) :
    (runActionEffect flow st s).state.currentStep = s.currentStep ∧
    (runActionEffect flow st s).state.busy = false ∧
    (runActionEffect flow st s).state.data = (actionChain st s.data).2 ∧
    (runActionEffect flow st s).errorLogged = true := by
  rcases hAC : actionChain st s.data with ⟨res, d2⟩
  rw [hAC] at herr
  simp only at herr
  subst herr
  have hAC' : actionChain st ({ s with busy := true } : RunnerState D).data
      = (Except.error e, d2) := hAC
  simp [runActionEffect, hAC', hAC, hm]

/-- Action step whose `input` mutates the data in place and whose `action`
then throws. -/
def throwingAction : ActionStep Nat Unit Unit String :=
  ⟨fun d => (.ok (), d + 1), fun _ d => (.error "boom", d), fun d _ => ((.ok none), d)⟩

/-- Runner state used to exercise `throwingAction`. -/
def stateForThrow : RunnerState Nat := ⟨"a", 0, 0, true, false⟩

/-- Flow used to exercise `throwingAction`. -/
def flowForThrow : FlowDefinition Unit Unit := ⟨[("a", ())], "a", none⟩

theorem action_error_policy_witness :
    (stateForThrow.mounted = true ∧
      (actionChain throwingAction stateForThrow.data).1 = .error "boom") ∧
    ((runActionEffect flowForThrow throwingAction stateForThrow).state.currentStep
        = stateForThrow.currentStep ∧
      (runActionEffect flowForThrow throwingAction stateForThrow).state.busy = false ∧
      (runActionEffect flowForThrow throwingAction stateForThrow).state.data
        = (actionChain throwingAction stateForThrow.data).2 ∧
      (runActionEffect flowForThrow throwingAction stateForThrow).errorLogged = true) :=
  ⟨⟨rfl, rfl⟩, action_error_policy flowForThrow throwingAction stateForThrow "boom" rfl rfl⟩

/-! ### C6: default busy rendering -/

/-- Flow consisting of a single action step. -/
def flowBusy : FlowDefinition StepShape Unit := ⟨[("saving", ⟨true, false⟩)], "saving", none⟩

/-- Runner state on the action step with its task in flight. -/
def stateBusy : RunnerState Unit := ⟨"saving", (), 0, true, true⟩

/-- Claim C6 describes the spec and the repository's tests (an action step
with no declared busy-render policy renders nothing while running), but the
shipped render branch returns `<div>Processing...</div>` whenever
`busy` is true: evaluating the code at the failing input shows the
non-empty render. -/
theorem busy_render_shows_processing :
    renderRunner flowBusy stateBusy = RenderOut.actionView (some "Processing...") ∧
    renderRunner flowBusy stateBusy ≠ RenderOut.actionView none := by
  decide

/-! ### Notification-pass helpers -/

theorem addCount_of_all_pass {l : List Listener} (h : ∀ e ∈ l, e.2 = LEff.pass) :
    addCount l = 0 := by
  refine List.countP_eq_zero.mpr ?_
  intro e he
  rw [h e he]
  simp

theorem runPass_all_pass (rest : List Listener) : ∀ (fuel : Nat) (reg : List Listener),
    (∀ e ∈ rest, e.2 = LEff.pass) → rest.length ≤ fuel →
    runPass fuel reg rest = (rest.map Prod.fst, reg, false) := by
  induction rest with
  | nil =>
    intro fuel reg _ _
    cases fuel <;> rfl
  | cons e t ih =>
    intro fuel reg hall hlen
    obtain ⟨i, eff⟩ := e
    have he : eff = LEff.pass := hall (i, eff) (List.mem_cons_self _ _)
    subst he
    cases fuel with
    | zero => simp at hlen
    | succ f =>
      have hlen' : t.length ≤ f := by
        simp only [List.length_cons] at hlen
        omega
      have hr := ih f reg (fun x hx => hall x (List.mem_cons_of_mem _ hx)) hlen'
      simp [runPass, hr]

theorem runPass_raise (pre : List Listener) :
    ∀ (fuel : Nat) (reg : List Listener) (n : Nat) (post : List Listener),
    (∀ e ∈ pre, e.2 = LEff.pass) → pre.length + 1 ≤ fuel →
    runPass fuel reg (pre ++ (n, LEff.raise) :: post) = (pre.map Prod.fst ++ [n], reg, true) := by
  induction pre with
  | nil =>
    intro fuel reg n post _ hlen
    cases fuel with
    | zero => simp at hlen
    | succ f => rfl
  | cons e t ih =>
    intro fuel reg n post hall hlen
    obtain ⟨i, eff⟩ := e
    have he : eff = LEff.pass := hall (i, eff) (List.mem_cons_self _ _)
    subst he
    cases fuel with
    | zero => simp at hlen
    | succ f =>
      have hlen' : t.length + 1 ≤ f := by
        simp only [List.length_cons] at hlen
        omega
      have hr := ih f reg n post (fun x hx => hall x (List.mem_cons_of_mem _ hx)) hlen'
      simp [runPass, hr]

/-! ### C7: emit commits then notifies synchronously -/

/-- Claim C7: `emit(update)` commits `update(prev)` when the argument is
callable and the argument itself otherwise, then synchronously notifies
every currently registered subscriber in order before returning; a
subsequent `get()` returns the committed value, and no exception escapes
nor does the subscriber set change when the listeners are plain callbacks. -/
theorem emit_commit_notify {T : Type} (c : ChannelState T) (u : Updater T)
    (h : ∀ e ∈ c.listeners, e.2 = LEff.pass) :
    (emitCh c u).state.value = (match u with | .val t => t | .fn f => f c.value) ∧
    getCh (emitCh c u).state = (match u with | .val t => t | .fn f => f c.value) ∧
    (emitCh c u).notified = c.listeners.map Prod.fst ∧
    (emitCh c u).threw = false ∧
    (emitCh c u).state.listeners = c.listeners := by
  have hrun := runPass_all_pass c.listeners (c.listeners.length + addCount c.listeners)
    c.listeners h (Nat.le_add_right _ _)
  cases u <;> simp [emitCh, getCh, hrun, applyUpdater]

/-- Channel with two plain listeners. -/
def chTwoPass : ChannelState Nat := ⟨0, [(1, LEff.pass), (2, LEff.pass)]⟩

theorem emit_commit_notify_witness :
    (∀ e ∈ chTwoPass.listeners, e.2 = LEff.pass) ∧
    (emitCh chTwoPass (Updater.fn (· + 5))).state.value = 0 + 5 ∧
    (emitCh chTwoPass (Updater.fn (· + 5))).notified = [1, 2] ∧
    (emitCh chTwoPass (Updater.fn (· + 5))).threw = false :=
  have h := emit_commit_notify chTwoPass (Updater.fn (· + 5)) (by decide)
  ⟨by decide, h.1, h.2.2.1, h.2.2.2.1⟩

/-! ### C8: a throwing listener -/

/-- Channel whose first listener throws. -/
def chRaise : ChannelState Nat := ⟨0, [(1, LEff.raise), (2, LEff.pass)]⟩

/-- Claim C8 as stated is false: `emit` is a bare
`listeners.forEach((l) => l())` with no try/catch, so when the first
listener throws, the exception escapes `emit` and the second registered
listener is never notified. -/
theorem emit_listener_raise_counterexample :
    (emitCh chRaise (Updater.val 7)).threw = true ∧
    (emitCh chRaise (Updater.val 7)).notified = [1] ∧
    2 ∈ chRaise.listeners.map Prod.fst ∧
    2 ∉ (emitCh chRaise (Updater.val 7)).notified := by
  decide

/-- Claim C8 (amended): when a listener throws during the notification
pass, the exception propagates out of `emit`; the listeners before it were
notified, those after it are skipped; the value was already committed. -/
theorem emit_raise_propagates {T : Type} (c : ChannelState T) (u : Updater T)
    (pre post : List Listener) (n : Nat)
    (hl : c.listeners = pre ++ (n, LEff.raise) :: post)
    (hpre : ∀ e ∈ pre, e.2 = LEff.pass) :
    (emitCh c u).threw = true ∧
    (emitCh c u).notified = pre.map Prod.fst ++ [n] ∧
    (emitCh c u).state.value = applyUpdater u c.value := by
  have hfuel : pre.length + 1 ≤ c.listeners.length + addCount c.listeners := by
    rw [hl]
    simp [List.length_append]
    omega
  have hrun := runPass_raise pre (c.listeners.length + addCount c.listeners)
    c.listeners n post hpre hfuel
  rw [← hl] at hrun
  refine ⟨?_, ?_, ?_⟩ <;> simp only [emitCh] <;> rw [hrun]

theorem emit_raise_propagates_witness :
    (chRaise.listeners = [] ++ (1, LEff.raise) :: [(2, LEff.pass)] ∧
      (∀ e ∈ ([] : List Listener), e.2 = LEff.pass)) ∧
    ((emitCh chRaise (Updater.val 7)).threw = true ∧
      (emitCh chRaise (Updater.val 7)).notified = [1] ∧
      (emitCh chRaise (Updater.val 7)).state.value = 7) :=
  ⟨⟨rfl, by decide⟩,
    emit_raise_propagates chRaise (Updater.val 7) [] [(2, LEff.pass)] 1 rfl (by decide)⟩

/-! ### C9: notification is live, not snapshot -/

/-- Channel whose first listener subscribes a fresh listener `3`. -/
def chAdd : ChannelState Nat := ⟨0, [(1, LEff.addL 3), (2, LEff.pass)]⟩

/-- Channel whose first listener unsubscribes listener `2`. -/
def chRem : ChannelState Nat := ⟨0, [(1, LEff.removeL 2), (2, LEff.pass)]⟩

/-- Claim C9 as stated is false: the notification pass iterates the live
JS `Set`.  A listener subscribed during the pass (identity 3, absent at
commit time) is notified in the same pass, and a listener unsubscribed
mid-pass (identity 2, present at commit time) is skipped. -/
theorem emit_snapshot_counterexample :
    ((emitCh chAdd (Updater.val 7)).notified = [1, 2, 3] ∧
      3 ∉ chAdd.listeners.map Prod.fst) ∧
    ((emitCh chRem (Updater.val 7)).notified = [1] ∧
      2 ∈ chRem.listeners.map Prod.fst) := by
  decide

/-- Claim C9 (amended): notification has live semantics.  A fresh listener
subscribed by the first listener is appended and notified at the end of the
same pass; a listener unsubscribed by the first listener before being
visited is not notified in that pass. -/
theorem runPass_addL_head (fuel : Nat) (a m : Nat) (tl reg : List Listener)
    (hm : (reg.map Prod.fst).contains m = false) :
    runPass (fuel + 1) reg ((a, LEff.addL m) :: tl)
      = (a :: (runPass fuel (reg ++ [(m, LEff.pass)]) (tl ++ [(m, LEff.pass)])).1,
         (runPass fuel (reg ++ [(m, LEff.pass)]) (tl ++ [(m, LEff.pass)])).2) := by
  simp only [runPass, hm]
  simp

theorem runPass_removeL_head (fuel : Nat) (a b : Nat) (tl reg : List Listener) :
    runPass (fuel + 1) reg ((a, LEff.removeL b) :: tl)
      = (a :: (runPass fuel (reg.filter (fun x => x.1 != b))
            (tl.filter (fun x => x.1 != b))).1,
         (runPass fuel (reg.filter (fun x => x.1 != b))
            (tl.filter (fun x => x.1 != b))).2) := by
  simp [runPass]

theorem emit_live_iteration {T : Type} (u : Updater T) (a m b : Nat) (tl : List Listener)
    (htl : ∀ e ∈ tl, e.2 = LEff.pass) :
    (∀ c : ChannelState T, c.listeners = (a, LEff.addL m) :: tl →
        m ∉ c.listeners.map Prod.fst →
        (emitCh c u).notified = a :: (tl.map Prod.fst ++ [m]) ∧
        (emitCh c u).threw = false) ∧
    (∀ c : ChannelState T, c.listeners = (a, LEff.removeL b) :: tl →
        (emitCh c u).notified = a :: (tl.filter (fun x => x.1 != b)).map Prod.fst ∧
        (b ≠ a → b ∉ (emitCh c u).notified)) := by
  have haddtl : addCount tl = 0 := addCount_of_all_pass htl
  constructor
  · intro c hc hm
    have hmem : (((a, LEff.addL m) :: tl).map Prod.fst).contains m = false := by
      rw [← hc]
      simpa using hm
    have hall : ∀ e ∈ tl ++ [(m, LEff.pass)], e.2 = LEff.pass := by
      intro e he
      rcases List.mem_append.mp he with h1 | h1
      · exact htl e h1
      · simp at h1
        rw [h1]
    have hcount : addCount ((a, LEff.addL m) :: tl) = addCount tl + 1 := by
      simp [addCount, List.countP_cons]
    have hfuel : c.listeners.length + addCount c.listeners = tl.length + 1 + 1 := by
      rw [hc, List.length_cons, hcount, haddtl]
    have hinner := runPass_all_pass (tl ++ [(m, LEff.pass)]) (tl.length + 1)
      (((a, LEff.addL m) :: tl) ++ [(m, LEff.pass)]) hall (by simp)
    have hfull : runPass (c.listeners.length + addCount c.listeners) c.listeners c.listeners
        = (a :: (tl.map Prod.fst ++ [m]),
           ((a, LEff.addL m) :: tl) ++ [(m, LEff.pass)], false) := by
      rw [hfuel, hc, runPass_addL_head (tl.length + 1) a m tl _ hmem, hinner]
      simp
    refine ⟨?_, ?_⟩ <;> simp only [emitCh] <;> rw [hfull]
  · intro c hc
    have hall : ∀ e ∈ tl.filter (fun x => x.1 != b), e.2 = LEff.pass := by
      intro e he
      exact htl e (List.mem_of_mem_filter he)
    have hcount : addCount ((a, LEff.removeL b) :: tl) = addCount tl := by
      simp [addCount, List.countP_cons]
    have hfuel : c.listeners.length + addCount c.listeners = tl.length + 1 := by
      rw [hc, List.length_cons, hcount, haddtl]
    have hinner := runPass_all_pass (tl.filter (fun x => x.1 != b)) tl.length
      (((a, LEff.removeL b) :: tl).filter (fun x => x.1 != b)) hall
      (List.length_filter_le _ _)
    have hfull : runPass (c.listeners.length + addCount c.listeners) c.listeners c.listeners
        = (a :: (tl.filter (fun x => x.1 != b)).map Prod.fst,
           ((a, LEff.removeL b) :: tl).filter (fun x => x.1 != b), false) := by
      rw [hfuel, hc, runPass_removeL_head tl.length a b tl _, hinner]
    have hnotif : (emitCh c u).notified
        = a :: (tl.filter (fun x => x.1 != b)).map Prod.fst := by
      simp only [emitCh]
      rw [hfull]
    refine ⟨hnotif, ?_⟩
    intro hba hmem
    rw [hnotif] at hmem
    rcases List.mem_cons.mp hmem with h1 | h1
    · exact hba h1
    · obtain ⟨x, hx, hxb⟩ := List.mem_map.mp h1
      have := List.of_mem_filter hx
      rw [hxb] at this
      simp at this

theorem emit_live_iteration_witness :
    ((∀ e ∈ [((2 : Nat), LEff.pass)], e.2 = LEff.pass) ∧
      chAdd.listeners = (1, LEff.addL 3) :: [(2, LEff.pass)] ∧
      3 ∉ chAdd.listeners.map Prod.fst ∧
      chRem.listeners = (1, LEff.removeL 2) :: [(2, LEff.pass)]) ∧
    ((emitCh chAdd (Updater.val 7)).notified = [1, 2, 3] ∧
      (emitCh chRem (Updater.val 7)).notified = [1] ∧
      ((2 : Nat) ≠ 1 → 2 ∉ (emitCh chRem (Updater.val 7)).notified)) :=
  have h := emit_live_iteration (T := Nat) (Updater.val 7) 1 3 2 [(2, LEff.pass)] (by decide)
  have ha := h.1 chAdd rfl (by decide)
  have hr := h.2 chRem rfl
  ⟨⟨by decide, rfl, by decide, rfl⟩, ⟨ha.1, hr.1, hr.2⟩⟩

/-! ### Channel-resolution helpers -/

theorem sameChannels_length_all {p cand : ChanMap} (h : sameChannels p cand = true) :
    p.length = cand.length ∧ ∀ e ∈ cand, p.lookup e.1 = some e.2 := by
  unfold sameChannels at h
  rw [Bool.and_eq_true] at h
  obtain ⟨h1, h2⟩ := h
  refine ⟨eq_of_beq h1, ?_⟩
  intro e he
  exact eq_of_beq ((List.all_eq_true.mp h2) e he)

theorem lookup_stickyCandidate (prev : Option ChanMap) (inc : ChanMap) (k : String) (c : Nat)
    (h : inc.lookup k = some c) :
    (stickyCandidate prev inc).lookup k
      = some ((prev.bind (fun p => p.lookup k)).getD c) := by
  induction inc with
  | nil => simp [List.lookup] at h
  | cons e t ih =>
    obtain ⟨a, b⟩ := e
    rw [List.lookup_cons] at h
    by_cases hk : k = a
    · subst hk
      have hb : b = c := by simpa using h
      subst hb
      simp [stickyCandidate, List.lookup_cons]
    · rw [beq_false_of_ne hk] at h
      have := ih h
      simpa [stickyCandidate, List.lookup_cons, beq_false_of_ne hk] using this

theorem resolved_lookup_sticky (prev : Option ChanMap) (inc : ChanMap) (k : String) (c : Nat)
    (h : inc.lookup k = some c) :
    ((getResolvedChannels .sticky prev (some inc)).resolved.bind (fun r => r.lookup k))
      = some ((prev.bind (fun p => p.lookup k)).getD c) := by
  have hcand := lookup_stickyCandidate prev inc k c h
  cases prev with
  | none =>
    simpa [getResolvedChannels, candidateOf] using hcand
  | some p =>
    simp only [getResolvedChannels, candidateOf]
    split
    case isTrue hsame =>
      have hx := lookup_eq_some_mem hcand
      have hpk : p.lookup k = some (((some p).bind (fun q => q.lookup k)).getD c) :=
        (sameChannels_length_all hsame).2 _ hx
      simpa using hpk
    case isFalse hsame =>
      simpa using hcand

theorem resolveSeq_sticky_stable (k : String) :
    ∀ (ms : List ChanMap) (p : ChanMap) (v : Nat),
    p.lookup k = some v → (∀ m' ∈ ms, (m'.lookup k).isSome) →
    ((resolveSeq .sticky (some p) (ms.map some)).bind (fun r => r.lookup k)) = some v := by
  intro ms
  induction ms with
  | nil =>
    intro p v hv _
    simpa [resolveSeq] using hv
  | cons m t ih =>
    intro p v hv hall
    obtain ⟨c, hc⟩ := Option.isSome_iff_exists.mp (hall m (List.mem_cons_self _ _))
    have hstep := resolved_lookup_sticky (some p) m k c hc
    rw [Option.some_bind, hv] at hstep
    obtain ⟨r, hr⟩ : ∃ r, (getResolvedChannels .sticky (some p) (some m)).resolved = some r := by
      simp only [getResolvedChannels, candidateOf]
      split <;> exact ⟨_, rfl⟩
    rw [hr, Option.some_bind] at hstep
    simp only [Option.getD_some] at hstep
    simp only [List.map_cons, resolveSeq]
    rw [hr]
    exact ih r v hstep (fun m' hm' => hall m' (List.mem_cons_of_mem _ hm'))

/-! ### C2: sticky binding never rebinds a key -/

/-- Claim C2: under the `sticky` strategy, each incoming key resolves to the
previously resolved instance when one exists, else to the incoming instance;
consequently, starting from no resolution, across any sequence of incoming
maps that all carry key `k`, the bound instance for `k` stays the one bound
by the first map, whatever instances later maps supply. -/
theorem sticky_channel_binding (k : String) :
    (∀ (prev : Option ChanMap) (inc : ChanMap) (c : Nat), inc.lookup k = some c →
        ((getResolvedChannels .sticky prev (some inc)).resolved.bind (fun r => r.lookup k))
          = some ((prev.bind (fun p => p.lookup k)).getD c)) ∧
    (∀ (m : ChanMap) (ms : List ChanMap) (c : Nat), m.lookup k = some c →
        (∀ m' ∈ ms, (m'.lookup k).isSome) →
        ((resolveSeq .sticky none (List.map some (m :: ms))).bind (fun r => r.lookup k))
          = some c) := by
  constructor
  · intro prev inc c h
    exact resolved_lookup_sticky prev inc k c h
  · intro m ms c hm hall
    have h0 := resolved_lookup_sticky none m k c hm
    obtain ⟨r, hr⟩ : ∃ r, (getResolvedChannels .sticky none (some m)).resolved = some r :=
      ⟨_, rfl⟩
    rw [hr, Option.some_bind] at h0
    simp only [Option.none_bind, Option.getD_none] at h0
    simp only [List.map_cons, resolveSeq]
    rw [hr]
    exact resolveSeq_sticky_stable k ms r c h0 hall

theorem sticky_channel_binding_witness :
    ((([("a", 1)] : ChanMap).lookup "a" = some 1) ∧
      (∀ m' ∈ ([[("a", 2)], [("a", 3)]] : List ChanMap), (m'.lookup "a").isSome)) ∧
    ((resolveSeq .sticky none
        (List.map some ([("a", 1)] :: [[("a", 2)], [("a", 3)]]))).bind
      (fun r => r.lookup "a")) = some 1 :=
  ⟨⟨by decide, by decide⟩,
    (sticky_channel_binding "a").2 [("a", 1)] [[("a", 2)], [("a", 3)]] 1 (by decide) (by decide)⟩

/-! ### C5: referential stability of the resolved map -/

/-- Claim C5: when a previous resolution exists and the strategy's candidate
has the same key set with identical channel instances per key, the
resolution returns the previous map object unchanged, so the subscription
effect does not re-fire: no channel is unsubscribed or resubscribed. -/
theorem dedup_referential_stability (strat : Strategy) (p inc : ChanMap)
    (hp : (keysOf p).Nodup)
    (hc : (keysOf (candidateOf strat (some p) inc)).Nodup)
    (hkeys : ∀ k, k ∈ keysOf p ↔ k ∈ keysOf (candidateOf strat (some p) inc))
    (hvals : ∀ k v, (candidateOf strat (some p) inc).lookup k = some v →
        p.lookup k = some v) :
    getResolvedChannels strat (some p) (some inc) = ⟨some p, true⟩ ∧
    (∀ subs : ChanMap,
        syncSubscriptions (getResolvedChannels strat (some p) (some inc)) subs
          = ⟨subs, false⟩) := by
  have hsetEq : (keysOf (candidateOf strat (some p) inc)).toFinset = (keysOf p).toFinset := by
    ext x
    simp only [List.mem_toFinset]
    exact (hkeys x).symm
  have hlen : p.length = (candidateOf strat (some p) inc).length := by
    have h1 := List.toFinset_card_of_nodup hp
    have h2 := List.toFinset_card_of_nodup hc
    have h3 : (keysOf p).length = (keysOf (candidateOf strat (some p) inc)).length := by
      rw [← h1, ← h2, hsetEq]
    simpa [keysOf] using h3
  have hall : (candidateOf strat (some p) inc).all
      (fun e => p.lookup e.1 == some e.2) = true := by
    rw [List.all_eq_true]
    intro e he
    have hl : (candidateOf strat (some p) inc).lookup e.1 = some e.2 :=
      nodup_mem_lookup hc (by simpa using he)
    rw [hvals _ _ hl]
    exact beq_self_eq_true _
  have hsame : sameChannels p (candidateOf strat (some p) inc) = true := by
    simp [sameChannels, hlen, hall]
  have hres : getResolvedChannels strat (some p) (some inc) = ⟨some p, true⟩ := by
    simp [getResolvedChannels, hsame]
  exact ⟨hres, fun subs => by simp [hres, syncSubscriptions]⟩

theorem dedup_referential_stability_witness :
    ((keysOf [("a", 1)]).Nodup ∧
      (keysOf (candidateOf .sticky (some [("a", 1)]) [("a", 2)])).Nodup) ∧
    getResolvedChannels .sticky (some [("a", 1)]) (some [("a", 2)])
      = ⟨some [("a", 1)], true⟩ ∧
    syncSubscriptions (getResolvedChannels .sticky (some [("a", 1)]) (some [("a", 2)]))
      [("a", 1)] = ⟨[("a", 1)], false⟩ :=
  have h := dedup_referential_stability .sticky [("a", 1)] [("a", 2)]
    (by decide) (by decide) (fun k => Iff.rfl) (fun k v hv => hv)
  ⟨⟨by decide, by decide⟩, h.1, h.2 [("a", 1)]⟩

/-! ### C10: resolved keys track the incoming map -/

theorem keysOf_candidateOf (strat : Strategy) (prev : Option ChanMap) (inc : ChanMap) :
    keysOf (candidateOf strat prev inc) = keysOf inc := by
  cases strat with
  | sticky => simp [candidateOf, stickyCandidate, keysOf, List.map_map, Function.comp]
  | replace => rfl

theorem sameChannels_keys {p cand : ChanMap} (hp : (keysOf p).Nodup)
    (hc : (keysOf cand).Nodup) (h : sameChannels p cand = true) :
    ∀ k, k ∈ keysOf p ↔ k ∈ keysOf cand := by
  have hlen' : p.length = cand.length := (sameChannels_length_all h).1
  have hsub : keysOf cand ⊆ keysOf p := by
    intro k hk
    obtain ⟨e, he, hek⟩ := List.mem_map.mp hk
    have hpk : p.lookup e.1 = some e.2 := (sameChannels_length_all h).2 e he
    have hm := lookup_eq_some_mem hpk
    rw [← hek]
    exact List.mem_map_of_mem Prod.fst hm
  have hlenk : (keysOf cand).length = (keysOf p).length := by
    simp [keysOf, hlen']
  have hsubF : (keysOf cand).toFinset ⊆ (keysOf p).toFinset := by
    intro x hx
    exact List.mem_toFinset.mpr (hsub (List.mem_toFinset.mp hx))
  have hEq : (keysOf cand).toFinset = (keysOf p).toFinset :=
    Finset.eq_of_subset_of_card_le hsubF
      (by rw [List.toFinset_card_of_nodup hp, List.toFinset_card_of_nodup hc, hlenk])
  intro k
  constructor
  · intro hk
    exact List.mem_toFinset.mp (hEq ▸ List.mem_toFinset.mpr hk)
  · exact fun hk => hsub hk

/-- Claim C10: for both strategies the resolved map's key set equals the
incoming map's key set; a key present in the previous resolution but absent
from the incoming map is dropped (even under `sticky`), the resolution is a
fresh object, and the next subscription sync no longer subscribes that key;
when the incoming map is absent the resolved map is absent. -/
theorem resolved_keys_match_incoming (strat : Strategy) (prev : Option ChanMap)
    (hprev : ∀ p, prev = some p → (keysOf p).Nodup) :
    ((getResolvedChannels strat prev none).resolved = none) ∧
    (∀ inc : ChanMap, (keysOf inc).Nodup →
        ∀ k, k ∈ keysOf ((getResolvedChannels strat prev (some inc)).resolved.getD [])
          ↔ k ∈ keysOf inc) ∧
    (∀ (inc p : ChanMap) (k : String), prev = some p →
        (keysOf inc).Nodup → k ∈ keysOf p → k ∉ keysOf inc →
        (getResolvedChannels strat prev (some inc)).samePrev = false ∧
        k ∉ keysOf (syncSubscriptions (getResolvedChannels strat prev (some inc)) p).subs) := by
  refine ⟨by simp [getResolvedChannels], ?_, ?_⟩
  · intro inc hinc k
    cases prev with
    | none =>
      simp [getResolvedChannels, keysOf_candidateOf]
    | some p =>
      have hp := hprev p rfl
      have hcnd : (keysOf (candidateOf strat (some p) inc)).Nodup := by
        rw [keysOf_candidateOf]
        exact hinc
      simp only [getResolvedChannels]
      split
      case isTrue hsame =>
        simp only [Option.getD_some]
        rw [← keysOf_candidateOf strat (some p) inc]
        exact sameChannels_keys hp hcnd hsame k
      case isFalse hsame =>
        simp [keysOf_candidateOf]
  · intro inc p k hpv hinc hkp hki
    subst hpv
    have hp := hprev p rfl
    have hcnd : (keysOf (candidateOf strat (some p) inc)).Nodup := by
      rw [keysOf_candidateOf]
      exact hinc
    cases hb : sameChannels p (candidateOf strat (some p) inc) with
    | true =>
      exfalso
      have := (sameChannels_keys hp hcnd hb k).mp hkp
      rw [keysOf_candidateOf] at this
      exact hki this
    | false =>
      have hres : getResolvedChannels strat (some p) (some inc)
          = ⟨some (candidateOf strat (some p) inc), false⟩ := by
        simp [getResolvedChannels, hb]
      constructor
      · rw [hres]
      · rw [hres]
        simp only [syncSubscriptions]
        simp [keysOf_candidateOf, hki]

theorem resolved_keys_match_incoming_witness :
    ((∀ q : ChanMap, some [("a", 1), ("b", 2)] = some q → (keysOf q).Nodup) ∧
      (keysOf ([("a", 7), ("c", 3)] : ChanMap)).Nodup ∧
      "b" ∈ keysOf [("a", 1), ("b", 2)] ∧ "b" ∉ keysOf [("a", 7), ("c", 3)]) ∧
    ((getResolvedChannels .sticky (some [("a", 1), ("b", 2)])
        (some [("a", 7), ("c", 3)])).samePrev = false ∧
      "b" ∉ keysOf (syncSubscriptions
        (getResolvedChannels .sticky (some [("a", 1), ("b", 2)])
          (some [("a", 7), ("c", 3)])) [("a", 1), ("b", 2)]).subs) :=
  have hprev : ∀ q : ChanMap, some [("a", 1), ("b", 2)] = some q → (keysOf q).Nodup :=
    fun q hq => (Option.some.inj hq) ▸ (by decide)
  ⟨⟨hprev, by decide, by decide, by decide⟩,
    (resolved_keys_match_incoming .sticky (some [("a", 1), ("b", 2)]) hprev).2.2
      [("a", 7), ("c", 3)] [("a", 1), ("b", 2)] "b" rfl (by decide) (by decide) (by decide)⟩

end UIFlow
